import Mathlib

/-!
# PuenteCultural: the guide-request form of `frontend/src/App.jsx`

A shallow embedding of the `App` component: its strings, the derived `canSubmit`
flag, the theme initialiser and toggle, `downloadFicha`, and `onGenerate` split at its
single `await` into the part that runs on the click and the part that runs when the
call to `generateGuide` settles.
-/

namespace PuenteCultural

/-! ## JavaScript strings and values -/

/-- A JavaScript string is its sequence of UTF-16 code units; `length` counts them. -/
abbrev JSString := List Nat

/-- UTF-16 code units of one Unicode scalar value. -/
def utf16Char (c : Char) : List Nat :=
  if c.toNat < 65536 then [c.toNat]
  else [55296 + (c.toNat - 65536) / 1024, 56320 + (c.toNat - 65536) % 1024]

/-- The JavaScript string written by a source literal. -/
def js (s : String) : JSString := s.toList.flatMap utf16Char

/-- Code units matched by `\s` and stripped by `String.prototype.trim`: ECMAScript
WhiteSpace (TAB, VT, FF, SP, NBSP, ZWNBSP and the Unicode space separators) and
LineTerminator (LF, CR, LS, PS). -/
def isWhiteSpace (c : Nat) : Bool :=
  c == 9 || c == 10 || c == 11 || c == 12 || c == 13 || c == 32 || c == 160 ||
  c == 5760 || (decide (8192 ≤ c) && decide (c ≤ 8202)) || c == 8232 || c == 8233 ||
  c == 8239 || c == 8287 || c == 12288 || c == 65279

/-- Leading white space dropped (`trimStart`). -/
def trimStart (s : JSString) : JSString := s.dropWhile isWhiteSpace

/-- Trailing white space dropped (`trimEnd`). -/
def trimEnd (s : JSString) : JSString := (s.reverse.dropWhile isWhiteSpace).reverse

/-- The method `String.prototype.trim`. -/
def trim (s : JSString) : JSString := trimEnd (trimStart s)

/-- The values a state variable of the component can hold, as far as the component
looks at them: `undefined`, a string, or any other value seen only through its
truthiness. -/
inductive JSValue where
  | undefined
  | string (s : JSString)
  | other (truthy : Bool)
  deriving DecidableEq, Repr

/-- The conversion `ToBoolean`, as used by `!resultado` and `resultado ? … : …`. -/
def JSValue.toBoolean : JSValue → Bool
  | .undefined => false
  | .string s => !s.isEmpty
  | .other b => b

/-- Array indexing `xs[i]`: `undefined` outside the bounds. -/
def arrayGet (xs : List JSString) (i : Nat) : JSValue :=
  match xs[i]? with
  | some s => .string s
  | none => .undefined

/-! ## Module constants -/

def quickTopics : List JSString :=
  [js "La Guerra Civil Española", js "La Generación del 27", js "Present Perfect vs Past Simple"]

def quickProfiles : List JSString :=
  [js "Mayoría de estudiantes de Colombia y Venezuela",
   js "Grupo mixto con alumnado de Marruecos, Perú y Rumanía",
   js "Clase de recién llegados con nivel intermedio de español"]

def thinkingSteps : List JSString :=
  [js "🧠 Analizando perfil cultural de los estudiantes...",
   js "📚 Consultando el currículo oficial (BOE)...",
   js "🔎 Detectando palabras complejas o arcaicas...",
   js "🌉 Construyendo puentes culturales...",
   js "✍️ Redactando ficha didáctica inclusiva...",
   js "✨ Dando los últimos toques de magia..."]

/-- The message used by the `catch` block for a thrown value that is not an `Error`. -/
def fallbackMessage : JSString := js "Ocurrió un error inesperado."

def darkTheme : JSString := js "dark"

def lightTheme : JSString := js "light"

def themeKey : JSString := js "theme"

/-! ## Draft, payload and component state -/

/-- The form data held in the `draft` state variable. -/
structure Draft where
  tema : JSString
  materia : JSString
  perfil_alumnos : JSString
  deriving DecidableEq, Repr

/-- The object built by `onGenerate` and passed to `generateGuide`. -/
structure Payload where
  tema : JSString
  materia : JSString
  perfil_alumnos : JSString
  deriving DecidableEq, Repr

/-- The three keys `updateField` is called with. -/
inductive Field where
  | tema
  | materia
  | perfil_alumnos
  deriving DecidableEq, Repr

/-- The state variables of `App` (one `useState` each). -/
structure AppState where
  theme : JSString
  draft : Draft
  loading : Bool
  loadingStep : JSValue
  resultado : JSValue
  error : JSString
  lastPayload : Option Payload
  history : List Payload
  deriving DecidableEq, Repr

/-- The draft the component starts with. -/
def initialDraft : Draft :=
  { tema := (quickTopics[0]?).getD [], materia := js "Historia",
    perfil_alumnos := (quickProfiles[0]?).getD [] }

/-- The state after the first render, given the theme the initialiser chose. -/
def initialState (theme : JSString) : AppState :=
  { theme := theme, draft := initialDraft, loading := false, loadingStep := .string [],
    resultado := .string [], error := [], lastPayload := none, history := [] }

/-- The memoised `canSubmit`:
`draft.tema.trim().length >= 3 && draft.perfil_alumnos.trim().length >= 5`. -/
def canSubmit (draft : Draft) : Bool :=
  decide ((trim draft.tema).length ≥ 3) && decide ((trim draft.perfil_alumnos).length ≥ 5)

/-- The updater `(prev) => ({ ...prev, [key]: value })` of `updateField`. -/
def updateField (key : Field) (value : JSString) (prev : Draft) : Draft :=
  match key with
  | .tema => { prev with tema := value }
  | .materia => { prev with materia := value }
  | .perfil_alumnos => { prev with perfil_alumnos := value }

/-- The `disabled` attribute of the submit button is `!canSubmit || loading`; the button
reacts to a click when it is not disabled. -/
def submitEnabled (s : AppState) : Bool := !(!canSubmit s.draft || s.loading)

/-! ## Theme -/

/-- The `localStorage` object: keys with their stored strings. -/
abbrev Storage := List (JSString × JSString)

/-- The call `localStorage.getItem(key)`; `none` is `null`. -/
def Storage.getItem (st : Storage) (key : JSString) : Option JSString :=
  (st.find? (fun kv => kv.1 == key)).map Prod.snd

/-- The call `localStorage.setItem(key, value)`. -/
def Storage.setItem (st : Storage) (key value : JSString) : Storage :=
  (key, value) :: st.filter (fun kv => !(kv.1 == key))

/-- The lazy initialiser of the `theme` state: `savedTheme` is what
`localStorage.getItem('theme')` returned, `prefersDark` is
`window.matchMedia('(prefers-color-scheme: dark)').matches`. -/
def initTheme (savedTheme : Option JSString) (prefersDark : Bool) : JSString :=
  match savedTheme with
  | some s =>
    if s = darkTheme ∨ s = lightTheme then s
    else if prefersDark then darkTheme else lightTheme
  | none => if prefersDark then darkTheme else lightTheme

/-- The updater of `toggleTheme`: `currentTheme === 'dark' ? 'light' : 'dark'`. -/
def toggleTheme (currentTheme : JSString) : JSString :=
  if currentTheme = darkTheme then lightTheme else darkTheme

/-- What the theme effect touches: the storage and whether the root element carries the
class `dark`. -/
structure ThemeEnv where
  localStorage : Storage
  rootHasDark : Bool
  deriving DecidableEq, Repr

/-- The effect run after every change of `theme`:
`classList.toggle('dark', theme === 'dark')` and `localStorage.setItem('theme', theme)`. -/
def themeEffect (theme : JSString) (env : ThemeEnv) : ThemeEnv :=
  { localStorage := env.localStorage.setItem themeKey theme,
    rootHasDark := decide (theme = darkTheme) }

/-- A page load: the initialiser reads the storage and the system preference. -/
def loadTheme (env : ThemeEnv) (prefersDark : Bool) : JSString :=
  initTheme (env.localStorage.getItem themeKey) prefersDark

/-! ## Download -/

/-- The regular-expression replacement `s.replace(/\s+/g, '_')` as the engine's scan
from left to right. `inMatch` is true while the greedy match of `\s+` begun at an earlier
code unit is being extended: white space then belongs to that match and writes nothing.
White space met outside a match begins one and writes the single underscore that
replaces the whole match; any other code unit ends the match, if any, and is copied. -/
def replaceScan (inMatch : Bool) : JSString → JSString
  | [] => []
  | c :: cs =>
    if isWhiteSpace c then
      if inMatch then replaceScan true cs else 95 :: replaceScan true cs
    else c :: replaceScan false cs

/-- The expression `draft.tema.replace(/\s+/g, '_')`. -/
def replaceWhiteSpaceRuns (s : JSString) : JSString := replaceScan false s

/-- The template literal of `downloadFicha`. -/
def fichaFileName (tema : JSString) : JSString :=
  js "Ficha_PuenteCultural_" ++ replaceWhiteSpaceRuns tema ++ js ".md"

/-- The object `new Blob(parts, { type })`. -/
structure Blob where
  parts : List JSValue
  type : JSString
  deriving DecidableEq, Repr

/-- A file offered to the user by a click on an anchor with a `download` attribute. -/
structure SavedFile where
  name : JSString
  blob : Blob
  deriving DecidableEq, Repr

/-- What `downloadFicha` touches: the children of `document.body` (node ids, in order),
the id the next created element gets, the blobs registered by `URL.createObjectURL`
(the position is the URL) and the files offered so far. -/
structure Document where
  body : List Nat
  nextNode : Nat
  objectURLs : List Blob
  downloads : List SavedFile
  deriving DecidableEq, Repr

/-- The handler `downloadFicha`. -/
def downloadFicha (s : AppState) (doc : Document) : Document :=
  if !s.resultado.toBoolean then doc
  else
    let element := doc.nextNode
    let file : Blob := { parts := [s.resultado], type := js "text/markdown" }
    let href := doc.objectURLs.length
    let urls := doc.objectURLs ++ [file]
    let download := fichaFileName s.draft.tema
    let appended := doc.body ++ [element]
    let clicked :=
      match urls[href]? with
      | some blob => doc.downloads ++ [{ name := download, blob := blob }]
      | none => doc.downloads
    { body := appended.filter (fun n => !(n == element)), nextNode := doc.nextNode + 1,
      objectURLs := urls, downloads := clicked }

/-! ## Generation -/

/-- A value thrown into the `catch` block, as the block looks at it: an instance of
`Error` with its `message` (the empty string when it was built without one), or any
other value, which may or may not have a `message` property of its own. -/
inductive Thrown where
  | errorInstance (message : JSString)
  | nonError (message : Option JSString)
  deriving DecidableEq, Repr

/-- The value `generateGuide` resolved with, as `data.resultado` looks at it: `null` or
`undefined`, where the property read throws a `TypeError` with the engine's message, or
any other value with what its `resultado` property holds. -/
inductive Resolved where
  | nullish (typeErrorMessage : JSString)
  | value (resultado : JSValue)
  deriving DecidableEq, Repr

/-- How the awaited promise settles. -/
inductive Settlement where
  | resolved (data : Resolved)
  | rejected (err : Thrown)
  deriving DecidableEq, Repr

/-- An interval started by `setInterval`, with the `stepIndex` variable its callback
closes over. -/
structure Timer where
  id : Nat
  stepIndex : Nat
  deriving DecidableEq, Repr

/-- A call of `onGenerate` suspended at its `await`: the locals the rest of it reads. -/
structure Invocation where
  intervalId : Nat
  payload : Payload
  deriving DecidableEq, Repr

/-- The component together with the runtime around it: the running intervals, the id the
next `setInterval` returns, the suspended calls of `onGenerate` and the payloads handed
to `generateGuide` so far. -/
structure World where
  app : AppState
  timers : List Timer
  nextIntervalId : Nat
  inflight : List Invocation
  sent : List Payload
  deriving DecidableEq, Repr

/-- The payload literal of `onGenerate`. -/
def buildPayload (draft : Draft) : Payload :=
  { tema := trim draft.tema, materia := draft.materia,
    perfil_alumnos := trim draft.perfil_alumnos }

/-- The updater `(prev) => [payload, ...prev].slice(0, 5)`. -/
def recordHistory (payload : Payload) (prev : List Payload) : List Payload :=
  (payload :: prev).take 5

/-- The part of `onGenerate` before the `await`: the three setters, the first phrase, the
interval, the payload and the call to `generateGuide`. Returns the suspended call too. -/
def onGenerateStart (w : World) : World × Invocation :=
  let app := { w.app with loading := true, error := [], resultado := .string [],
                          loadingStep := arrayGet thinkingSteps 0 }
  let intervalId := w.nextIntervalId
  let payload := buildPayload w.app.draft
  let inv : Invocation := { intervalId := intervalId, payload := payload }
  ({ app := app, timers := w.timers ++ [{ id := intervalId, stepIndex := 0 }],
     nextIntervalId := w.nextIntervalId + 1, inflight := w.inflight ++ [inv],
     sent := w.sent ++ [payload] }, inv)

/-- The interval callback: `stepIndex = (stepIndex + 1) % thinkingSteps.length`, then
`setLoadingStep(thinkingSteps[stepIndex])`. -/
def intervalCallback (t : Timer) (app : AppState) : Timer × AppState :=
  let stepIndex := (t.stepIndex + 1) % thinkingSteps.length
  ({ t with stepIndex := stepIndex }, { app with loadingStep := arrayGet thinkingSteps stepIndex })

/-- One firing of the interval `id`; `none` when no such interval is running. -/
def tick (id : Nat) (w : World) : Option World :=
  match w.timers.find? (fun t => t.id == id) with
  | none => none
  | some t =>
    let r := intervalCallback t w.app
    some { w with app := r.2,
                  timers := w.timers.map (fun u => if u.id == id then r.1 else u) }

/-- The call `clearInterval(id)`. -/
def clearInterval (id : Nat) (timers : List Timer) : List Timer :=
  timers.filter (fun t => !(t.id == id))

/-- A block's result: the state it left and the value it threw, if it threw. -/
structure Outcome where
  world : World
  thrown : Option Thrown
  deriving DecidableEq, Repr

/-- The statement `try { body } catch (err) { handler } finally { finalizer }`. -/
def tryCatchFinally (body : World → Outcome) (handler : Thrown → World → Outcome)
    (finalizer : World → Outcome) (w : World) : Outcome :=
  let afterBody := body w
  let afterCatch :=
    match afterBody.thrown with
    | none => afterBody
    | some err => handler err afterBody.world
  let afterFinally := finalizer afterCatch.world
  match afterFinally.thrown with
  | some err => { world := afterFinally.world, thrown := some err }
  | none => { world := afterFinally.world, thrown := afterCatch.thrown }

/-- The `try` block once the promise has settled. A rejection is rethrown by `await`;
reading `data.resultado` throws on `null` and `undefined`, before any setter runs. -/
def tryBlock (inv : Invocation) (s : Settlement) (w : World) : Outcome :=
  match s with
  | .rejected err => { world := w, thrown := some err }
  | .resolved (.nullish msg) => { world := w, thrown := some (.errorInstance msg) }
  | .resolved (.value resultado) =>
    { world := { w with app := { w.app with resultado := resultado,
                                            lastPayload := some inv.payload,
                                            history := recordHistory inv.payload w.app.history } },
      thrown := none }

/-- The message chosen by the `catch` block:
`err instanceof Error ? err.message : 'Ocurrió un error inesperado.'`. -/
def errorMessage (err : Thrown) : JSString :=
  match err with
  | .errorInstance message => message
  | .nonError _ => fallbackMessage

/-- The `catch` block. -/
def catchBlock (err : Thrown) (w : World) : Outcome :=
  { world := { w with app := { w.app with error := errorMessage err } }, thrown := none }

/-- The `finally` block: `clearInterval(intervalId)` and `setLoading(false)`. -/
def finallyBlock (inv : Invocation) (w : World) : Outcome :=
  { world := { w with app := { w.app with loading := false },
                      timers := clearInterval inv.intervalId w.timers },
    thrown := none }

/-- The part of `onGenerate` after the `await`, run when the promise settles. -/
def onGenerateResume (inv : Invocation) (s : Settlement) (w : World) : Outcome :=
  tryCatchFinally (tryBlock inv s) catchBlock (finallyBlock inv)
    { w with inflight := w.inflight.erase inv }

/-! ## Events -/

/-- What can happen to the page: an edit of a form field (typing, selecting, or a quick
topic button), a click on the theme button, a click on the submit button, a firing of an
interval, and the settling of a suspended call. -/
inductive Event where
  | edit (key : Field) (value : JSString)
  | clickTheme
  | clickGenerate
  | intervalFires (id : Nat)
  | settles (inv : Invocation) (s : Settlement)
  deriving DecidableEq, Repr

/-- The page's reaction to an event; `none` when the event cannot happen in this state.
`mayClick` is the condition under which the submit control lets a click through. -/
def step (mayClick : AppState → Bool) (e : Event) (w : World) : Option World :=
  match e with
  | .edit key value =>
    some { w with app := { w.app with draft := updateField key value w.app.draft } }
  | .clickTheme => some { w with app := { w.app with theme := toggleTheme w.app.theme } }
  | .clickGenerate => if mayClick w.app then some (onGenerateStart w).1 else none
  | .intervalFires id => tick id w
  | .settles inv s =>
    if inv ∈ w.inflight then some (onGenerateResume inv s w).world else none

/-- A run of events from a state. -/
def run (mayClick : AppState → Bool) : List Event → World → Option World
  | [], w => some w
  | e :: es, w => (step mayClick e w).bind (run mayClick es)

/-- The world after the first render. -/
def initialWorld (theme : JSString) : World :=
  { app := initialState theme, timers := [], nextIntervalId := 0, inflight := [], sent := [] }

/-- The states the page can be in: those some run of events from the first render leads
to. -/
def Reachable (mayClick : AppState → Bool) (w : World) : Prop :=
  ∃ theme es, run mayClick es (initialWorld theme) = some w

/-- A whole call of `onGenerate` during which nothing else happens: the part before the
`await`, then the part after it with the way the promise settled. -/
def generate (s : Settlement) (w : World) : Outcome :=
  onGenerateResume (onGenerateStart w).2 s (onGenerateStart w).1

/-- One successful submission: the draft is `d` when the button is clicked and
`generateGuide` resolves with an object whose `resultado` is `v`. -/
def submitSuccessfully (d : Draft) (v : JSValue) (w : World) : World :=
  (generate (.resolved (.value v)) { w with app := { w.app with draft := d } }).world

/-- Successive successful submissions, first to last. -/
def submitAllSuccessfully (subs : List (Draft × JSValue)) (w : World) : World :=
  subs.foldl (fun w sub => submitSuccessfully sub.1 sub.2 w) w

/-- The history updater applied for the payloads `ps`, first to last. -/
def recordAll (ps : List Payload) (prev : List Payload) : List Payload :=
  ps.foldl (fun h p => recordHistory p h) prev

/-- The interval `id` fires `k` times in a row. -/
def ticks (id : Nat) : Nat → World → Option World
  | 0, w => some w
  | k + 1, w => (tick id w).bind (ticks id k)

/-- The status invariant behind the exclusive display: either nothing is in flight, the
page is not loading and result and error are not both shown, or exactly one call is in
flight, the page is loading and result and error are both empty. -/
def StatusInv (w : World) : Prop :=
  (w.app.loading = false ∧ w.inflight = [] ∧
    (w.app.resultado.toBoolean = false ∨ w.app.error = [])) ∨
  (w.app.loading = true ∧ (∃ inv, w.inflight = [inv]) ∧
    w.app.resultado = .string [] ∧ w.app.error = [])

/-- The words "the snapshot of the Draft with trimmed strings": the payload's topic and
profile are the draft's with leading and trailing white space removed, and its subject
is the draft's. -/
def IsTrimmedSnapshot (draft : Draft) (p : Payload) : Prop :=
  p.tema = trim draft.tema ∧ p.materia = draft.materia ∧
  p.perfil_alumnos = trim draft.perfil_alumnos

/-- The payload `p` was taken at a click in the past of `w`: the run from `start` to `w`
passes through a state `atClick` in which the submit button was enabled and clicked, and
`p` is the trimmed snapshot of the draft of that state. -/
def SnapshotAtClick (start w : World) (p : Payload) : Prop :=
  ∃ (before after : List Event) (atClick : World),
    run submitEnabled before start = some atClick ∧
    run submitEnabled (.clickGenerate :: after) atClick = some w ∧
    canSubmit atClick.app.draft = true ∧ atClick.app.loading = false ∧
    IsTrimmedSnapshot atClick.app.draft p

/-- What an event hands to `generateGuide` in a state where it can happen: a click on
the submit button hands over the trimmed snapshot of the draft, any other event
nothing. -/
def clickSnapshot (e : Event) (w : World) : List Payload :=
  match e with
  | .clickGenerate =>
    [{ tema := trim w.app.draft.tema, materia := w.app.draft.materia,
       perfil_alumnos := trim w.app.draft.perfil_alumnos }]
  | _ => []

/-- The trimmed snapshots of the draft at the clicks the submit button let through along
a run of events, first to last. -/
def clickSnapshots : List Event → World → List Payload
  | [], _ => []
  | e :: es, w =>
    match step submitEnabled e w with
    | none => []
    | some w' => clickSnapshot e w ++ clickSnapshots es w'

/-- The payload invariant of the runs from `start`: `w` is reached from `start`, every
payload handed to `generateGuide` was taken at a click in the past of `w`, and the
history, the last payload and the calls in flight hold only payloads that were handed to
`generateGuide`. -/
def PayloadInv (start w : World) : Prop :=
  (∃ es, run submitEnabled es start = some w) ∧
  (∀ p ∈ w.sent, SnapshotAtClick start w p) ∧
  (∀ p ∈ w.app.history, p ∈ w.sent) ∧
  (∀ p, w.app.lastPayload = some p → p ∈ w.sent) ∧
  (∀ inv ∈ w.inflight, inv.payload ∈ w.sent)

/-- A run in which the draft is edited while the call is in flight: a click, a new
topic typed, then the call of the click resolves. -/
def editedInFlight : List Event :=
  [.clickGenerate, .edit .tema (js "Otro tema"),
   .settles { intervalId := 0, payload := buildPayload initialDraft }
     (.resolved (.value (.string (js "# Ficha"))))]

/-- Interval ids in use are below the id the next `setInterval` returns. -/
def TimersFresh (w : World) : Prop :=
  ∀ t ∈ w.timers, t.id < w.nextIntervalId

/-- The world in which the interval `id`, at step `i`, runs next to the intervals `ts`. -/
def withOwnTimer (w : World) (ts : List Timer) (id i : Nat) (app : AppState) : World :=
  { w with app := app, timers := ts ++ [{ id := id, stepIndex := i }] }

/-- The call invariant: either the page is not loading, no call is in flight and no
interval runs, or the page is loading, one call is in flight and the one interval
running is that call's. -/
def CallInv (w : World) : Prop :=
  (w.app.loading = false ∧ w.inflight = [] ∧ w.timers = []) ∨
  (w.app.loading = true ∧
    ∃ inv i, w.inflight = [inv] ∧ w.timers = [{ id := inv.intervalId, stepIndex := i }])

/-! ## Specification-side definitions -/

/-- The words "`s` with leading and trailing whitespace removed": `t` is what is left
of `s` between a stretch of white space at the start and one at the end, and `t` itself
neither starts nor ends with white space. -/
def StrippedOfWhiteSpace (s t : JSString) : Prop :=
  ∃ lead trail : JSString,
    (∀ c ∈ lead, isWhiteSpace c = true) ∧ (∀ c ∈ trail, isWhiteSpace c = true) ∧
    s = lead ++ t ++ trail ∧
    (∀ c, t.head? = some c → isWhiteSpace c = false) ∧
    (∀ c, t.getLast? = some c → isWhiteSpace c = false)

/-- The maximal runs of a string: the string cut into stretches of white space and
stretches of other code units, each stretch as long as possible. -/
def maximalRuns : JSString → List JSString
  | [] => []
  | c :: cs =>
    match maximalRuns cs with
    | [] => [[c]]
    | [] :: rest => [c] :: rest
    | (d :: run) :: rest =>
      if isWhiteSpace c = isWhiteSpace d then (c :: d :: run) :: rest
      else [c] :: (d :: run) :: rest

/-- The words "every maximal run of whitespace characters replaced by a single
underscore". -/
def underscoreForWhiteSpaceRuns (s : JSString) : JSString :=
  (maximalRuns s).flatMap (fun run => if run.all isWhiteSpace then [95] else run)

/-- Whether a run is made of white space; `none` for the empty list. -/
def runKind (run : JSString) : Option Bool := run.head?.map isWhiteSpace

/-! ## Trimming -/

theorem trimEnd_eq_rdropWhile (s : JSString) : trimEnd s = s.rdropWhile isWhiteSpace := rfl

theorem trimEnd_append_whiteSpace (t trail : JSString)
    (h : ∀ c ∈ trail, isWhiteSpace c = true) : trimEnd (t ++ trail) = trimEnd t := by
  unfold trimEnd
  rw [List.reverse_append, List.dropWhile_append_of_pos]
  intro c hc
  exact h c (List.mem_reverse.mp hc)

theorem trimEnd_of_getLast (t : JSString)
    (h : ∀ c, t.getLast? = some c → isWhiteSpace c = false) : trimEnd t = t := by
  rw [trimEnd_eq_rdropWhile, List.rdropWhile_eq_self_iff]
  intro hl
  have := h (t.getLast hl) (List.getLast?_eq_getLast t hl)
  simp [this]

theorem trimStart_of_head (t : JSString)
    (h : ∀ c, t.head? = some c → isWhiteSpace c = false) : trimStart t = t := by
  unfold trimStart
  cases t with
  | nil => rfl
  | cons c cs =>
    have := h c rfl
    simp [List.dropWhile_cons, this]

theorem trimStart_head (s : JSString) (c : Nat) (h : (trimStart s).head? = some c) :
    isWhiteSpace c = false := by
  have := List.head?_dropWhile_not isWhiteSpace s
  unfold trimStart at h
  rw [h] at this
  simpa using this

theorem trimEnd_getLast (s : JSString) (c : Nat) (h : (trimEnd s).getLast? = some c) :
    isWhiteSpace c = false := by
  have hne : s.rdropWhile isWhiteSpace ≠ [] := by
    intro h0
    rw [trimEnd_eq_rdropWhile, h0] at h
    simp at h
  have := List.rdropWhile_last_not isWhiteSpace s hne
  rw [trimEnd_eq_rdropWhile, List.getLast?_eq_getLast _ hne] at h
  simp only [Option.some.injEq] at h
  rw [h] at this
  simpa using this

theorem trimEnd_head (t : JSString) (h : ∀ c, t.head? = some c → isWhiteSpace c = false) :
    ∀ c, (trimEnd t).head? = some c → isWhiteSpace c = false := by
  intro c hc
  have hp : trimEnd t <+: t := by
    rw [trimEnd_eq_rdropWhile]; exact List.rdropWhile_prefix isWhiteSpace t
  obtain ⟨r, hr⟩ := hp
  apply h c
  cases ht : trimEnd t with
  | nil => rw [ht] at hc; simp at hc
  | cons a as =>
    rw [ht] at hc hr
    rw [← hr]
    simpa using hc

theorem trim_stripped (s : JSString) : StrippedOfWhiteSpace s (trim s) := by
  refine ⟨s.takeWhile isWhiteSpace, (trimStart s).rtakeWhile isWhiteSpace, ?_, ?_, ?_, ?_, ?_⟩
  · intro c hc
    exact (List.mem_takeWhile_imp hc)
  · intro c hc
    exact List.mem_rtakeWhile_imp hc
  · have h1 : trim s ++ (trimStart s).rtakeWhile isWhiteSpace = trimStart s := by
      unfold trim
      unfold trimEnd List.rtakeWhile
      rw [← List.reverse_append, List.takeWhile_append_dropWhile, List.reverse_reverse]
    rw [List.append_assoc, h1]
    exact (List.takeWhile_append_dropWhile isWhiteSpace s).symm
  · exact trimEnd_head _ (trimStart_head s)
  · exact trimEnd_getLast _

theorem stripped_unique (s t : JSString) (h : StrippedOfWhiteSpace s t) : t = trim s := by
  obtain ⟨lead, trail, hl, htr, hs, hh, hlast⟩ := h
  subst hs
  unfold trim
  have h1 : trimStart (lead ++ t ++ trail) = trimStart (t ++ trail) := by
    unfold trimStart
    rw [List.append_assoc, List.dropWhile_append_of_pos hl]
  rw [h1]
  cases t with
  | nil =>
    have h2 : trimStart ([] ++ trail) = [] := by
      unfold trimStart
      simpa [List.dropWhile_eq_nil_iff] using htr
    rw [h2]; rfl
  | cons c cs =>
    have h2 : trimStart (c :: cs ++ trail) = c :: cs ++ trail :=
      trimStart_of_head _ (by intro d hd; exact hh d (by simpa using hd))
    rw [h2, trimEnd_append_whiteSpace _ _ htr, trimEnd_of_getLast _ hlast]

theorem trim_idem (s : JSString) : trim (trim s) = trim s :=
  (stripped_unique (trim s) (trim s)
    ⟨[], [], by simp, by simp, by simp,
      (trim_stripped s).choose_spec.choose_spec.2.2.2.1,
      (trim_stripped s).choose_spec.choose_spec.2.2.2.2⟩).symm

theorem trim_of_all_whiteSpace (s : JSString) (h : ∀ c ∈ s, isWhiteSpace c = true) :
    trim s = [] := by
  unfold trim trimStart
  rw [List.dropWhile_eq_nil_iff.mpr h]
  rfl

/-! ## C1 -/

/-- C1: for every draft, `canSubmit` is true exactly when the topic with leading and
trailing white space removed has at least 3 code units and the student profile so
stripped has at least 5, where `trim` yields the one string that is the input stripped of
leading and trailing white space; it is false when either stripped length is below its
minimum, in particular for a topic of white space only; it does not depend on the
subject; and it is true for the topic "La Guerra Civil Española" with the profile
"Mayoría de estudiantes de Colombia y Venezuela". -/
theorem canSubmit_iff_trimmed_lengths (d : Draft) :
    (∀ s t, StrippedOfWhiteSpace s t ↔ t = trim s) ∧
    (canSubmit d = true ↔
      3 ≤ (trim d.tema).length ∧ 5 ≤ (trim d.perfil_alumnos).length) ∧
    ((trim d.tema).length < 3 ∨ (trim d.perfil_alumnos).length < 5 → canSubmit d = false) ∧
    ((∀ c ∈ d.tema, isWhiteSpace c = true) → canSubmit d = false) ∧
    (∀ m, canSubmit { d with materia := m } = canSubmit d) ∧
    (∀ m, canSubmit { tema := js "La Guerra Civil Española", materia := m,
                      perfil_alumnos := js "Mayoría de estudiantes de Colombia y Venezuela" }
          = true) := by
  refine ⟨?_, ?_, ?_, ?_, ?_, ?_⟩
  · intro s t
    exact ⟨stripped_unique s t, fun h => h ▸ trim_stripped s⟩
  · simp [canSubmit]
  · intro h
    simp only [canSubmit, ge_iff_le, Bool.and_eq_false_imp, decide_eq_true_eq, decide_eq_false_iff_not]
    omega
  · intro h
    simp [canSubmit, trim_of_all_whiteSpace _ h]
  · intro m
    rfl
  · intro m
    show (decide ((trim (js "La Guerra Civil Española")).length ≥ 3) &&
      decide ((trim (js "Mayoría de estudiantes de Colombia y Venezuela")).length ≥ 5)) = true
    decide

/-! ## C7 and C8: theme -/

theorem getItem_setItem (st : Storage) (key value : JSString) :
    (st.setItem key value).getItem key = some value := by
  simp [Storage.getItem, Storage.setItem]

theorem toggleTheme_valid (t : JSString) :
    toggleTheme t = darkTheme ∨ toggleTheme t = lightTheme := by
  unfold toggleTheme
  split
  · exact Or.inr rfl
  · exact Or.inl rfl

/-- C7: for every stored value under the key `theme` (absent, or any string) and every
system dark-mode preference, the initial theme is the stored value when that is exactly
`dark` or `light`; otherwise it is `dark` when the system prefers dark and `light` when
it does not. The initial theme is always one of the two values, and the page load reads
the stored value under the key `theme`. -/
theorem initTheme_stored_else_system (saved : Option JSString) (prefersDark : Bool) :
    ((saved = some darkTheme ∨ saved = some lightTheme) →
      some (initTheme saved prefersDark) = saved) ∧
    (¬(saved = some darkTheme ∨ saved = some lightTheme) →
      initTheme saved prefersDark = if prefersDark then darkTheme else lightTheme) ∧
    (initTheme saved prefersDark = darkTheme ∨ initTheme saved prefersDark = lightTheme) ∧
    (∀ env, loadTheme env prefersDark = initTheme (env.localStorage.getItem (js "theme")) prefersDark) ∧
    darkTheme = js "dark" ∧ lightTheme = js "light" := by
  refine ⟨?_, ?_, ?_, fun _ => rfl, rfl, rfl⟩
  · rintro (h | h) <;> subst h <;> simp [initTheme]
  · intro h
    cases saved with
    | none => rfl
    | some s =>
      have hs : ¬(s = darkTheme ∨ s = lightTheme) := by
        simpa using h
      simp [initTheme, hs]
  · cases saved with
    | none => cases prefersDark <;> simp [initTheme]
    | some s =>
      by_cases hs : s = darkTheme ∨ s = lightTheme
      · simp [initTheme, hs]
      · cases prefersDark <;> simp [initTheme, hs]

/-- A stored `dark` wins over a light system preference, and a stored value that is
neither `dark` nor `light` leaves the choice to the system preference. -/
theorem initTheme_stored_else_system_witness :
    some (initTheme (some darkTheme) false) = some darkTheme ∧
    initTheme (some (js "blue")) true = (if true then darkTheme else lightTheme) :=
  ⟨(initTheme_stored_else_system (some darkTheme) false).1 (Or.inl rfl),
   (initTheme_stored_else_system (some (js "blue")) true).2.1 (by decide)⟩

/-- C8: for a theme that is `light` or `dark`, two toggles give the theme back, one
toggle changes it and stays within the two values, and once the theme effect has
written the toggled value to the storage a page load yields that value whatever the
system preference is. -/
theorem toggleTheme_involutive_and_persisted (t : JSString)
    (h : t = lightTheme ∨ t = darkTheme) :
    toggleTheme (toggleTheme t) = t ∧ toggleTheme t ≠ t ∧
    (toggleTheme t = lightTheme ∨ toggleTheme t = darkTheme) ∧
    (∀ env prefersDark, loadTheme (themeEffect (toggleTheme t) env) prefersDark = toggleTheme t) ∧
    (∀ env, (themeEffect (toggleTheme t) env).localStorage.getItem (js "theme")
      = some (toggleTheme t)) := by
  have hne : lightTheme ≠ darkTheme := by decide
  refine ⟨?_, ?_, (toggleTheme_valid t).symm, ?_, ?_⟩
  · rcases h with h | h <;> subst h <;> simp [toggleTheme, hne]
  · rcases h with h | h <;> subst h <;> simp [toggleTheme, hne, hne.symm]
  · intro env prefersDark
    unfold loadTheme themeEffect
    rw [getItem_setItem]
    rcases toggleTheme_valid t with h1 | h1 <;> simp [initTheme, h1]
  · intro env
    exact getItem_setItem _ _ _

/-- The theme properties at the theme `light`. -/
theorem toggleTheme_involutive_and_persisted_witness :
    toggleTheme (toggleTheme lightTheme) = lightTheme ∧ toggleTheme lightTheme ≠ lightTheme ∧
    (toggleTheme lightTheme = lightTheme ∨ toggleTheme lightTheme = darkTheme) ∧
    (∀ env prefersDark,
      loadTheme (themeEffect (toggleTheme lightTheme) env) prefersDark = toggleTheme lightTheme) ∧
    (∀ env, (themeEffect (toggleTheme lightTheme) env).localStorage.getItem (js "theme")
      = some (toggleTheme lightTheme)) :=
  toggleTheme_involutive_and_persisted lightTheme (Or.inl rfl)

/-! ## C2: history -/

theorem recordHistory_take (p : Payload) (h : List Payload) :
    recordHistory p (h.take 5) = (p :: h).take 5 := by
  simp [recordHistory, List.take_take]

theorem recordAll_take (ps : List Payload) :
    ∀ h : List Payload, recordAll ps (h.take 5) = (ps.reverse ++ h).take 5 := by
  induction ps with
  | nil => intro h; rfl
  | cons p ps ih =>
    intro h
    show recordAll ps (recordHistory p (h.take 5)) = _
    rw [recordHistory_take, ih]
    simp

theorem recordAll_nil (ps : List Payload) : recordAll ps [] = ps.reverse.take 5 := by
  have := recordAll_take ps []
  simpa using this

theorem resume_value_history (inv : Invocation) (v : JSValue) (w : World) :
    (onGenerateResume inv (.resolved (.value v)) w).world.app.history
      = recordHistory inv.payload w.app.history := rfl

theorem submitSuccessfully_history (d : Draft) (v : JSValue) (w : World) :
    (submitSuccessfully d v w).app.history = recordHistory (buildPayload d) w.app.history := rfl

theorem submitAllSuccessfully_history (subs : List (Draft × JSValue)) :
    ∀ w : World, (submitAllSuccessfully subs w).app.history
      = recordAll (subs.map (fun sub => buildPayload sub.1)) w.app.history := by
  induction subs with
  | nil => intro w; rfl
  | cons sub subs ih =>
    intro w
    show (submitAllSuccessfully subs (submitSuccessfully sub.1 sub.2 w)).app.history = _
    rw [ih, submitSuccessfully_history]
    rfl

/-- C2: the success branch of `onGenerate` replaces the history `prev` by
`[payload, ...prev].slice(0, 5)`; starting from the empty history, after the payloads
`ps` have been recorded one after the other the history is the last `min n 5` of them,
most recent first (the reversed sequence cut to 5), also when they are recorded by
whole successful submissions from the first render; it never has more than 5 entries,
a full history loses its oldest (last) entry to a new one, the same payload recorded
twice is there twice, and six payloads leave the last five. -/
theorem history_last_five_most_recent_first (ps : List Payload) :
    (∀ inv v w, (onGenerateResume inv (.resolved (.value v)) w).world.app.history
        = (inv.payload :: w.app.history).take 5) ∧
    recordAll ps [] = ps.reverse.take 5 ∧
    (recordAll ps []).length = min ps.length 5 ∧
    (recordAll ps []).length ≤ 5 ∧
    (∀ (subs : List (Draft × JSValue)) (theme : JSString),
      subs.map (fun sub => buildPayload sub.1) = ps →
      (submitAllSuccessfully subs (initialWorld theme)).app.history = ps.reverse.take 5) ∧
    (∀ p h, h.length = 5 → recordHistory p h = p :: h.dropLast) ∧
    (∀ p, recordAll [p, p] [] = [p, p]) ∧
    (∀ p1 p2 p3 p4 p5 p6, recordAll [p1, p2, p3, p4, p5, p6] [] = [p6, p5, p4, p3, p2]) := by
  refine ⟨fun _ _ _ => rfl, recordAll_nil ps, ?_, ?_, ?_, ?_, fun _ => rfl,
    fun _ _ _ _ _ _ => rfl⟩
  · rw [recordAll_nil]; simp [Nat.min_comm]
  · rw [recordAll_nil]; simp
  · intro subs theme h
    rw [submitAllSuccessfully_history, h]
    exact recordAll_nil ps
  · intro p h hlen
    match h, hlen with
    | [a, b, c, d, e], _ => rfl

/-- One successful submission of the starting draft from the first render. -/
theorem history_last_five_most_recent_first_witness :
    (submitAllSuccessfully [(initialDraft, JSValue.string (js "# Ficha"))]
      (initialWorld lightTheme)).app.history = [buildPayload initialDraft].reverse.take 5 :=
  (history_last_five_most_recent_first [buildPayload initialDraft]).2.2.2.2.1
    [(initialDraft, JSValue.string (js "# Ficha"))] lightTheme rfl

/-! ## How a call of `onGenerate` ends -/

theorem resume_thrown (inv : Invocation) (s : Settlement) (w : World) :
    (onGenerateResume inv s w).thrown = none := by
  rcases s with (_ | _) | _ <;> rfl

theorem resume_loading (inv : Invocation) (s : Settlement) (w : World) :
    (onGenerateResume inv s w).world.app.loading = false := by
  rcases s with (_ | _) | _ <;> rfl

theorem resume_timers (inv : Invocation) (s : Settlement) (w : World) :
    (onGenerateResume inv s w).world.timers = clearInterval inv.intervalId w.timers := by
  rcases s with (_ | _) | _ <;> rfl

theorem resume_inflight (inv : Invocation) (s : Settlement) (w : World) :
    (onGenerateResume inv s w).world.inflight = w.inflight.erase inv := by
  rcases s with (_ | _) | _ <;> rfl

theorem resume_nextIntervalId (inv : Invocation) (s : Settlement) (w : World) :
    (onGenerateResume inv s w).world.nextIntervalId = w.nextIntervalId := by
  rcases s with (_ | _) | _ <;> rfl

theorem resume_rejected_app (inv : Invocation) (err : Thrown) (w : World) :
    (onGenerateResume inv (.rejected err) w).world.app
      = { w.app with error := errorMessage err, loading := false } := rfl

theorem resume_nullish_app (inv : Invocation) (msg : JSString) (w : World) :
    (onGenerateResume inv (.resolved (.nullish msg)) w).world.app
      = { w.app with error := msg, loading := false } := rfl

theorem resume_value_app (inv : Invocation) (v : JSValue) (w : World) :
    (onGenerateResume inv (.resolved (.value v)) w).world.app
      = { w.app with resultado := v, lastPayload := some inv.payload,
                     history := recordHistory inv.payload w.app.history, loading := false } := rfl

theorem mem_clearInterval (id : Nat) (timers : List Timer) (t : Timer)
    (h : t ∈ clearInterval id timers) : t.id ≠ id := by
  unfold clearInterval at h
  have := (List.mem_filter.mp h).2
  simpa using this

theorem tick_clearInterval (id : Nat) (w : World) (h : ∀ t ∈ w.timers, t.id ≠ id) :
    tick id w = none := by
  unfold tick
  have : w.timers.find? (fun t => t.id == id) = none := by
    rw [List.find?_eq_none]
    intro t ht
    simpa using h t ht
  rw [this]

theorem tick_after_resume (inv : Invocation) (s : Settlement) (w : World) :
    tick inv.intervalId (onGenerateResume inv s w).world = none := by
  apply tick_clearInterval
  intro t ht
  rw [resume_timers] at ht
  exact mem_clearInterval _ _ _ ht

theorem fallbackMessage_ne_nil : fallbackMessage ≠ [] := by decide

/-! ## Runs of events -/

theorem run_invariant (mayClick : AppState → Bool) (P : World → Prop)
    (hstep : ∀ e w w', P w → step mayClick e w = some w' → P w') :
    ∀ es w w', P w → run mayClick es w = some w' → P w' := by
  intro es
  induction es with
  | nil =>
    intro w w' hw h
    simp only [run, Option.some.injEq] at h
    exact h ▸ hw
  | cons e es ih =>
    intro w w' hw h
    simp only [run] at h
    cases hs : step mayClick e w with
    | none => rw [hs] at h; simp at h
    | some w1 =>
      rw [hs] at h
      exact ih w1 w' (hstep e w w1 hw hs) h

theorem submitEnabled_iff (s : AppState) :
    submitEnabled s = true ↔ canSubmit s.draft = true ∧ s.loading = false := by
  unfold submitEnabled
  cases canSubmit s.draft <;> cases s.loading <;> simp

theorem tick_some (id : Nat) (w w' : World) (h : tick id w = some w') :
    ∃ t : Timer, t ∈ w.timers ∧ t.id = id ∧ w' =
      { w with
        app := (intervalCallback t w.app).2
        timers :=
          w.timers.map (fun u => if u.id == id then (intervalCallback t w.app).1 else u) } := by
  unfold tick at h
  split at h
  · simp at h
  · next t hfind =>
    simp only [Option.some.injEq] at h
    have hid : t.id = id := by
      simpa using List.find?_some hfind
    exact ⟨t, List.mem_of_find?_eq_some hfind, hid, h.symm⟩

theorem callInv_step (mayClick : AppState → Bool)
    (hguard : ∀ s, mayClick s = true → s.loading = false) :
    ∀ e w w', CallInv w → step mayClick e w = some w' → CallInv w' := by
  intro e w w' hw h
  cases e with
  | edit key value =>
    simp only [step, Option.some.injEq] at h
    subst h
    exact hw
  | clickTheme =>
    simp only [step, Option.some.injEq] at h
    subst h
    exact hw
  | clickGenerate =>
    simp only [step] at h
    split at h
    · next hc =>
      simp only [Option.some.injEq] at h
      subst h
      have hl := hguard _ hc
      rcases hw with ⟨_, hin, htm⟩ | ⟨hl2, _⟩
      · right
        exact ⟨rfl, (onGenerateStart w).2, 0, by simp [onGenerateStart, hin],
          by simp [onGenerateStart, htm]⟩
      · rw [hl] at hl2; exact absurd hl2 (by simp)
    · simp at h
  | intervalFires id =>
    simp only [step] at h
    obtain ⟨t, htmem, hid, ht⟩ := tick_some id w w' h
    subst ht
    rcases hw with ⟨_, _, htm⟩ | ⟨hl, inv, i, hin, htm⟩
    · rw [htm] at htmem; simp at htmem
    · right
      refine ⟨hl, inv, (intervalCallback t w.app).1.stepIndex, hin, ?_⟩
      rw [htm] at htmem
      have ht2 : t = { id := inv.intervalId, stepIndex := i } := by simpa using htmem
      have hid2 : inv.intervalId = id := by rw [← hid, ht2]
      show List.map _ w.timers = _
      rw [htm]
      simp [hid2, intervalCallback, ← hid]
  | settles inv s =>
    simp only [step] at h
    split at h
    · next hmem =>
      simp only [Option.some.injEq] at h
      subst h
      rcases hw with ⟨_, hin, _⟩ | ⟨_, inv0, i, hin, htm⟩
      · rw [hin] at hmem; simp at hmem
      · left
        have hinv : inv = inv0 := by rw [hin] at hmem; simpa using hmem
        subst hinv
        refine ⟨resume_loading _ _ _, ?_, ?_⟩
        · rw [resume_inflight, hin]; simp
        · rw [resume_timers, htm]; simp [clearInterval]
    · simp at h

theorem callInv_reachable (mayClick : AppState → Bool)
    (hguard : ∀ s, mayClick s = true → s.loading = false) (w : World)
    (h : Reachable mayClick w) : CallInv w := by
  obtain ⟨theme, es, hrun⟩ := h
  exact run_invariant mayClick CallInv (callInv_step mayClick hguard) es _ w
    (Or.inl ⟨rfl, rfl, rfl⟩) hrun

/-! ## C3 and C5: the error state after a failure -/

/-- C3, as the code has it: when the call rejects with an instance of `Error` whose
message is not empty, the error state is that message verbatim (message "Timeout"
gives "Timeout"); when it rejects with any value that is not an instance of `Error`,
with or without a message property, the error state is the fixed string
'Ocurrió un error inesperado.'; in both cases `resultado` is the empty string after the
call, and the rest of the call never changes `resultado` on a rejection. -/
theorem generate_rejected_error_state (w : World) (err : Thrown) :
    (∀ m, err = .errorInstance m → m ≠ [] → (generate (.rejected err) w).world.app.error = m) ∧
    (∀ m, err = .nonError m → (generate (.rejected err) w).world.app.error = fallbackMessage) ∧
    (generate (.rejected err) w).world.app.resultado = .string [] ∧
    (generate (.rejected (.errorInstance (js "Timeout"))) w).world.app.error = js "Timeout" ∧
    fallbackMessage = js "Ocurrió un error inesperado." ∧
    (∀ inv later, (onGenerateResume inv (.rejected err) later).world.app.resultado
      = later.app.resultado) := by
  refine ⟨?_, ?_, rfl, rfl, rfl, fun _ _ => rfl⟩
  · intro m h _
    subst h
    rfl
  · intro m h
    subst h
    rfl

/-- C3 as stated fails: a rejection with a plain object that carries the message
"Timeout" leaves the fallback string in the error state, not "Timeout"; and a rejection
with an `Error` that has no message leaves the empty string, not the fallback. -/
theorem generate_rejected_message_counterexample :
    (generate (.rejected (.nonError (some (js "Timeout")))) (initialWorld lightTheme)).world.app.error
      = fallbackMessage ∧
    (generate (.rejected (.nonError (some (js "Timeout")))) (initialWorld lightTheme)).world.app.error
      ≠ js "Timeout" ∧
    (generate (.rejected (.errorInstance [])) (initialWorld lightTheme)).world.app.error = [] ∧
    (generate (.rejected (.errorInstance [])) (initialWorld lightTheme)).world.app.error
      ≠ fallbackMessage := by
  refine ⟨rfl, ?_, rfl, ?_⟩ <;> decide

/-- What holds of every call of `onGenerate`, from every state and however the call
settles: it ends with `loading` false and with its own interval cleared, so that interval
cannot fire again, and no interval at all can fire in any state the page reaches while a
submit is let through only when not loading; no thrown value leaves `onGenerate`; a
rejection, or the `TypeError` of reading `resultado` from `null` or `undefined`, is
caught: `resultado` stays empty and the error state is the message chosen by the `catch`
block, which is not empty whenever the thrown value is not an `Error` or is an `Error`
with a message that is not empty. -/
theorem generate_always_cleans_up (w : World) (s : Settlement) :
    (generate s w).thrown = none ∧
    (generate s w).world.app.loading = false ∧
    (∀ t ∈ (generate s w).world.timers, t.id ≠ (onGenerateStart w).2.intervalId) ∧
    tick (onGenerateStart w).2.intervalId (generate s w).world = none ∧
    (w.timers = [] → ∀ id, tick id (generate s w).world = none) ∧
    (∀ inv later, (onGenerateResume inv s later).thrown = none ∧
      (onGenerateResume inv s later).world.app.loading = false ∧
      tick inv.intervalId (onGenerateResume inv s later).world = none) ∧
    (∀ err, s = .rejected err →
      (generate s w).world.app.resultado = .string [] ∧
      (generate s w).world.app.error = errorMessage err ∧
      ((∀ m, err = .errorInstance m → m ≠ []) → (generate s w).world.app.error ≠ [])) ∧
    (∀ msg, s = .resolved (.nullish msg) →
      (generate s w).world.app.resultado = .string [] ∧
      (generate s w).world.app.error = msg) ∧
    (∀ mayClick : AppState → Bool, (∀ a, mayClick a = true → a.loading = false) →
      Reachable mayClick w → ∀ inv w', step mayClick (.settles inv s) w = some w' →
        w'.app.loading = false ∧ w'.timers = [] ∧ ∀ id, tick id w' = none) := by
  refine ⟨resume_thrown _ _ _, resume_loading _ _ _, ?_, tick_after_resume _ _ _, ?_,
    fun inv later => ⟨resume_thrown _ _ _, resume_loading _ _ _, tick_after_resume _ _ _⟩,
    ?_, ?_, ?_⟩
  · intro t ht
    unfold generate at ht
    rw [resume_timers] at ht
    exact mem_clearInterval _ _ _ ht
  · intro h id
    apply tick_clearInterval
    intro t ht
    unfold generate at ht
    rw [resume_timers] at ht
    simp [onGenerateStart, clearInterval, h] at ht
  · intro err h
    subst h
    refine ⟨rfl, rfl, ?_⟩
    intro hm
    show errorMessage err ≠ []
    cases err with
    | errorInstance m => exact hm m rfl
    | nonError m => exact fallbackMessage_ne_nil
  · intro msg h
    subst h
    exact ⟨rfl, rfl⟩
  · intro mayClick hguard hreach inv w' hstep
    have hinv := callInv_step mayClick hguard _ w w' (callInv_reachable mayClick hguard w hreach)
      hstep
    simp only [step] at hstep
    split at hstep
    · simp only [Option.some.injEq] at hstep
      have hl : w'.app.loading = false := by rw [← hstep]; exact resume_loading _ _ _
      rcases hinv with ⟨_, _, htm⟩ | ⟨hl2, _⟩
      · refine ⟨hl, htm, fun id => tick_clearInterval id w' ?_⟩
        intro t ht
        rw [htm] at ht
        simp at ht
      · rw [hl] at hl2; simp at hl2
    · simp at hstep

/-- The first call, rejected with an `Error` that says "Timeout": the page stops
loading, no interval is left and none can fire. -/
theorem generate_always_cleans_up_witness :
    (onGenerateResume (onGenerateStart (initialWorld lightTheme)).2
        (.rejected (.errorInstance (js "Timeout")))
        (onGenerateStart (initialWorld lightTheme)).1).world.app.loading = false ∧
    (onGenerateResume (onGenerateStart (initialWorld lightTheme)).2
        (.rejected (.errorInstance (js "Timeout")))
        (onGenerateStart (initialWorld lightTheme)).1).world.timers = [] ∧
    ∀ id, tick id (onGenerateResume (onGenerateStart (initialWorld lightTheme)).2
        (.rejected (.errorInstance (js "Timeout")))
        (onGenerateStart (initialWorld lightTheme)).1).world = none :=
  (generate_always_cleans_up (onGenerateStart (initialWorld lightTheme)).1
      (.rejected (.errorInstance (js "Timeout")))).2.2.2.2.2.2.2.2
    submitEnabled (fun a ha => ((submitEnabled_iff a).mp ha).2)
    ⟨lightTheme, [.clickGenerate], by decide⟩
    (onGenerateStart (initialWorld lightTheme)).2 _ (by decide)

/-- C5, at the input where the code falls short of it: when the call rejects with an
`Error` built without a message, nothing is thrown out of `onGenerate` and `loading` is
false, but the error state is the empty string and `resultado` is empty, so the page
shows the idle state and not the error state; whereas for a rejection with a value that
is not an `Error` and has no message the `catch` block does put the fallback string,
which is not empty, into the error state. -/
theorem generate_rejected_empty_error_ends_idle :
    (generate (.rejected (.errorInstance [])) (initialWorld lightTheme)).thrown = none ∧
    (generate (.rejected (.errorInstance [])) (initialWorld lightTheme)).world.app.loading
      = false ∧
    (generate (.rejected (.errorInstance [])) (initialWorld lightTheme)).world.app.error = [] ∧
    (generate (.rejected (.errorInstance [])) (initialWorld lightTheme)).world.app.resultado
      = .string [] ∧
    (generate (.rejected (.nonError none)) (initialWorld lightTheme)).world.app.error
      = fallbackMessage ∧
    fallbackMessage ≠ [] :=
  ⟨rfl, rfl, rfl, rfl, rfl, by decide⟩

/-! ## C4: the status is exclusive -/

theorem statusInv_step (mayClick : AppState → Bool)
    (hguard : ∀ s, mayClick s = true → s.loading = false) :
    ∀ e w w', StatusInv w → step mayClick e w = some w' → StatusInv w' := by
  intro e w w' hw h
  cases e with
  | edit key value =>
    simp only [step, Option.some.injEq] at h
    subst h
    exact hw
  | clickTheme =>
    simp only [step, Option.some.injEq] at h
    subst h
    exact hw
  | clickGenerate =>
    simp only [step] at h
    split at h
    · next hc =>
      simp only [Option.some.injEq] at h
      subst h
      have hl := hguard _ hc
      rcases hw with ⟨_, hin, _⟩ | ⟨hl2, _⟩
      · right
        exact ⟨rfl, ⟨(onGenerateStart w).2, by simp [onGenerateStart, hin]⟩, rfl, rfl⟩
      · rw [hl] at hl2; exact absurd hl2 (by simp)
    · simp at h
  | intervalFires id =>
    simp only [step] at h
    obtain ⟨t, _, _, ht⟩ := tick_some id w w' h
    subst ht
    exact hw
  | settles inv s =>
    simp only [step] at h
    split at h
    · next hmem =>
      simp only [Option.some.injEq] at h
      subst h
      rcases hw with ⟨_, hin, _⟩ | ⟨_, ⟨inv0, hin⟩, hres, herr⟩
      · rw [hin] at hmem; simp at hmem
      · left
        have hinv : inv = inv0 := by rw [hin] at hmem; simpa using hmem
        subst hinv
        refine ⟨resume_loading _ _ _, ?_, ?_⟩
        · rw [resume_inflight, hin]; simp
        · rcases s with (msg | v) | err
          · left; rw [resume_nullish_app]; simp [hres, JSValue.toBoolean]
          · right; rw [resume_value_app]; exact herr
          · left; rw [resume_rejected_app]; simp [hres, JSValue.toBoolean]
    · simp at h

theorem statusInv_initial (theme : JSString) : StatusInv (initialWorld theme) :=
  Or.inl ⟨rfl, rfl, Or.inl rfl⟩

theorem statusInv_reachable (mayClick : AppState → Bool)
    (hguard : ∀ s, mayClick s = true → s.loading = false) (w : World)
    (h : Reachable mayClick w) : StatusInv w := by
  obtain ⟨theme, es, hrun⟩ := h
  exact run_invariant mayClick StatusInv (statusInv_step mayClick hguard) es _ w
    (statusInv_initial theme) hrun

/-- C4: in every state reached from the first render (not loading, `resultado` and
`error` empty) by edits, theme clicks, interval firings, settlings of the call in flight
(resolved with any value, or rejected) and submits, where a submit is let through only
when the page is not loading, at most one of "loading", "`resultado` is shown" and
"`error` is not empty" holds. A submit leaves error and result empty and the page
loading, and when the call in flight resolves with a document the error is empty
afterwards. -/
theorem status_mutually_exclusive (mayClick : AppState → Bool)
    (hguard : ∀ s, mayClick s = true → s.loading = false) (w : World)
    (h : Reachable mayClick w) :
    ¬(w.app.loading = true ∧ w.app.resultado.toBoolean = true) ∧
    ¬(w.app.loading = true ∧ w.app.error ≠ []) ∧
    ¬(w.app.resultado.toBoolean = true ∧ w.app.error ≠ []) ∧
    ((onGenerateStart w).1.app.error = [] ∧ (onGenerateStart w).1.app.resultado = .string [] ∧
      (onGenerateStart w).1.app.loading = true) ∧
    (∀ inv v w', step mayClick (.settles inv (.resolved (.value v))) w = some w' →
      w'.app.error = [] ∧ w'.app.resultado = v ∧ w'.app.loading = false) := by
  have hinv := statusInv_reachable mayClick hguard w h
  refine ⟨?_, ?_, ?_, ⟨rfl, rfl, rfl⟩, ?_⟩
  · rintro ⟨hl, hr⟩
    rcases hinv with ⟨hl2, _⟩ | ⟨_, _, hres, _⟩
    · rw [hl] at hl2; simp at hl2
    · rw [hres] at hr; simp [JSValue.toBoolean] at hr
  · rintro ⟨hl, he⟩
    rcases hinv with ⟨hl2, _⟩ | ⟨_, _, _, herr⟩
    · rw [hl] at hl2; simp at hl2
    · exact he herr
  · rintro ⟨hr, he⟩
    rcases hinv with ⟨_, _, hres | herr⟩ | ⟨_, _, _, herr⟩
    · rw [hr] at hres; simp at hres
    · exact he herr
    · exact he herr
  · intro inv v w' hstep
    simp only [step] at hstep
    split at hstep
    · next hmem =>
      simp only [Option.some.injEq] at hstep
      subst hstep
      rcases hinv with ⟨_, hin, _⟩ | ⟨_, _, _, herr⟩
      · rw [hin] at hmem; simp at hmem
      · exact ⟨herr, rfl, rfl⟩
    · simp at hstep

/-- The exclusive status in the state right after the first click on the submit button. -/
theorem status_mutually_exclusive_witness :
    ¬((onGenerateStart (initialWorld lightTheme)).1.app.loading = true ∧
      (onGenerateStart (initialWorld lightTheme)).1.app.resultado.toBoolean = true) ∧
    ¬((onGenerateStart (initialWorld lightTheme)).1.app.loading = true ∧
      (onGenerateStart (initialWorld lightTheme)).1.app.error ≠ []) ∧
    (onGenerateStart (initialWorld lightTheme)).1.app.loading = true :=
  have h := status_mutually_exclusive (fun s => !s.loading) (by intro s hs; simpa using hs)
    (onGenerateStart (initialWorld lightTheme)).1 ⟨lightTheme, [.clickGenerate], rfl⟩
  ⟨h.1, h.2.1, rfl⟩

/-! ## C9: payloads are trimmed snapshots -/

theorem run_snoc (mayClick : AppState → Bool) (e : Event) :
    ∀ (es : List Event) (w w1 w2 : World), run mayClick es w = some w1 →
      step mayClick e w1 = some w2 → run mayClick (es ++ [e]) w = some w2 := by
  intro es
  induction es with
  | nil =>
    intro w w1 w2 h1 h2
    simp only [run, Option.some.injEq] at h1
    subst h1
    simp [run, h2]
  | cons e0 es ih =>
    intro w w1 w2 h1 h2
    simp only [run] at h1
    cases hs : step mayClick e0 w with
    | none => rw [hs] at h1; simp at h1
    | some w0 =>
      rw [hs] at h1
      show (step mayClick e0 w).bind (run mayClick (es ++ [e])) = some w2
      rw [hs]
      exact ih w0 w1 w2 h1 h2

theorem resume_sent (inv : Invocation) (s : Settlement) (w : World) :
    (onGenerateResume inv s w).world.sent = w.sent := by
  rcases s with (_ | _) | _ <;> rfl

theorem step_sent (e : Event) (w w' : World) (h : step submitEnabled e w = some w') :
    w'.sent = w.sent ++ clickSnapshot e w := by
  cases e with
  | edit key value =>
    simp only [step, Option.some.injEq] at h
    subst h
    simp [clickSnapshot]
  | clickTheme =>
    simp only [step, Option.some.injEq] at h
    subst h
    simp [clickSnapshot]
  | clickGenerate =>
    simp only [step] at h
    split at h
    · simp only [Option.some.injEq] at h
      subst h
      rfl
    · simp at h
  | intervalFires id =>
    simp only [step] at h
    obtain ⟨t, _, _, ht⟩ := tick_some id w w' h
    subst ht
    simp [clickSnapshot]
  | settles inv s =>
    simp only [step] at h
    split at h
    · simp only [Option.some.injEq] at h
      subst h
      simp [resume_sent, clickSnapshot]
    · simp at h

theorem sent_eq_clickSnapshots :
    ∀ (es : List Event) (w0 w : World), run submitEnabled es w0 = some w →
      w.sent = w0.sent ++ clickSnapshots es w0 := by
  intro es
  induction es with
  | nil =>
    intro w0 w h
    simp only [run, Option.some.injEq] at h
    subst h
    simp [clickSnapshots]
  | cons e es ih =>
    intro w0 w h
    simp only [run] at h
    cases hs : step submitEnabled e w0 with
    | none => rw [hs] at h; simp at h
    | some w1 =>
      rw [hs] at h
      have h1 := ih w1 w h
      have h2 := step_sent e w0 w1 hs
      have h3 : clickSnapshots (e :: es) w0 = clickSnapshot e w0 ++ clickSnapshots es w1 := by
        simp only [clickSnapshots, hs]
      rw [h1, h2, h3, List.append_assoc]

theorem snapshotAtClick_step (start w w' : World) (p : Payload) (e : Event)
    (hp : SnapshotAtClick start w p) (h : step submitEnabled e w = some w') :
    SnapshotAtClick start w' p := by
  obtain ⟨before, after, atClick, h1, h2, h3, h4, h5⟩ := hp
  exact ⟨before, after ++ [e], atClick, h1,
    run_snoc submitEnabled e (.clickGenerate :: after) atClick w w' h2 h, h3, h4, h5⟩

theorem payloadInv_step (start : World) :
    ∀ e w w', PayloadInv start w → step submitEnabled e w = some w' → PayloadInv start w' := by
  intro e w w' hw h
  obtain ⟨⟨es, hes⟩, hsent, hhist, hlast, hinf⟩ := hw
  have hreach : ∃ es, run submitEnabled es start = some w' :=
    ⟨es ++ [e], run_snoc submitEnabled e es start w w' hes h⟩
  have hkeep : ∀ p ∈ w.sent, SnapshotAtClick start w' p :=
    fun p hp => snapshotAtClick_step start w w' p e (hsent p hp) h
  have hstep := h
  cases e with
  | edit key value =>
    simp only [step, Option.some.injEq] at h
    subst h
    exact ⟨hreach, hkeep, hhist, hlast, hinf⟩
  | clickTheme =>
    simp only [step, Option.some.injEq] at h
    subst h
    exact ⟨hreach, hkeep, hhist, hlast, hinf⟩
  | clickGenerate =>
    simp only [step] at h
    split at h
    · next hc =>
      simp only [Option.some.injEq] at h
      subst h
      have hen := (submitEnabled_iff _).mp hc
      refine ⟨hreach, ?_, ?_, ?_, ?_⟩
      · intro p hp
        rcases List.mem_append.mp hp with hp | hp
        · exact hkeep p hp
        · have hpe : p = buildPayload w.app.draft := by simpa using hp
          refine ⟨es, [], w, hes, ?_, hen.1, hen.2, ?_⟩
          · simp [run, hstep]
          · rw [hpe]
            exact ⟨rfl, rfl, rfl⟩
      · intro p hp
        exact List.mem_append_left _ (hhist p hp)
      · intro p hp
        exact List.mem_append_left _ (hlast p hp)
      · intro inv hinv
        rcases List.mem_append.mp hinv with hi | hi
        · exact List.mem_append_left _ (hinf inv hi)
        · have : inv = (onGenerateStart w).2 := by simpa using hi
          subst this
          exact List.mem_append_right _ (by simp [onGenerateStart])
    · simp at h
  | intervalFires id =>
    simp only [step] at h
    obtain ⟨t, _, _, ht⟩ := tick_some id w w' h
    subst ht
    exact ⟨hreach, hkeep, hhist, hlast, hinf⟩
  | settles inv s =>
    simp only [step] at h
    split at h
    · next hmem =>
      simp only [Option.some.injEq] at h
      subst h
      have hp := hinf inv hmem
      have hsent2 : ∀ p ∈ (onGenerateResume inv s w).world.sent,
          SnapshotAtClick start (onGenerateResume inv s w).world p := by
        intro p hp2
        rw [resume_sent] at hp2
        exact hkeep p hp2
      have hinf2 : ∀ i ∈ (onGenerateResume inv s w).world.inflight,
          i.payload ∈ (onGenerateResume inv s w).world.sent := by
        intro i hi
        rw [resume_inflight] at hi
        rw [resume_sent]
        exact hinf i (List.mem_of_mem_erase hi)
      rcases s with (msg | v) | err
      · exact ⟨hreach, hsent2, hhist, hlast, hinf2⟩
      · refine ⟨hreach, hsent2, ?_, ?_, hinf2⟩
        · intro p hp2
          rw [resume_value_app] at hp2
          have hp3 : p ∈ inv.payload :: w.app.history := List.mem_of_mem_take hp2
          rcases List.mem_cons.mp hp3 with h1 | h1
          · exact h1 ▸ hp
          · exact hhist p h1
        · intro p hp2
          rw [resume_value_app] at hp2
          simp only [Option.some.injEq] at hp2
          exact hp2 ▸ hp
      · exact ⟨hreach, hsent2, hhist, hlast, hinf2⟩
    · simp at h

theorem payloadInv_run (theme : JSString) (es : List Event) (w : World)
    (hrun : run submitEnabled es (initialWorld theme) = some w) :
    PayloadInv (initialWorld theme) w := by
  refine run_invariant submitEnabled (PayloadInv (initialWorld theme))
    (payloadInv_step (initialWorld theme)) es _ w ?_ hrun
  refine ⟨⟨[], rfl⟩, ?_, ?_, ?_, ?_⟩ <;> simp [initialWorld, initialState]

theorem snapshot_trimmed (d : Draft) (p : Payload) (hcan : canSubmit d = true)
    (h : IsTrimmedSnapshot d p) :
    trim p.tema = p.tema ∧ 3 ≤ p.tema.length ∧
    trim p.perfil_alumnos = p.perfil_alumnos ∧ 5 ≤ p.perfil_alumnos.length := by
  obtain ⟨h1, _, h3⟩ := h
  simp only [canSubmit, ge_iff_le, Bool.and_eq_true, decide_eq_true_eq] at hcan
  rw [h1, h3]
  exact ⟨trim_idem _, hcan.1, trim_idem _, hcan.2⟩

/-- C9: in every state reached from the first render by events in which the submit
button lets a click through only while it is enabled (`canSubmit` and not loading),
every payload handed to `generateGuide`, every history entry, the last payload and the
payload of every call in flight was taken at a click in the past of that state: the
button was enabled there, the payload's topic and profile are the trimmed topic and
profile of the draft of that moment and its subject is that draft's subject; so
trimming them again changes nothing and they have at least 3 and 5 code units. The
payloads handed to `generateGuide` are, in order, exactly the trimmed snapshots of the
draft at the clicks of the run. A click hands over the trimmed draft of that moment, a
click while loading is ignored, an edit of the draft leaves the payloads in flight, sent
and recorded untouched, and a successful settling records the payload of the call, not
the draft of that moment. -/
theorem payload_is_trimmed_snapshot (w : World) (h : Reachable submitEnabled w) :
    (∀ p, (p ∈ w.sent ∨ p ∈ w.app.history ∨ w.app.lastPayload = some p ∨
          ∃ inv ∈ w.inflight, inv.payload = p) →
      (∃ (theme : JSString) (before after : List Event) (atClick : World),
        run submitEnabled before (initialWorld theme) = some atClick ∧
        run submitEnabled (.clickGenerate :: after) atClick = some w ∧
        canSubmit atClick.app.draft = true ∧ atClick.app.loading = false ∧
        p.tema = trim atClick.app.draft.tema ∧ p.materia = atClick.app.draft.materia ∧
        p.perfil_alumnos = trim atClick.app.draft.perfil_alumnos) ∧
      trim p.tema = p.tema ∧ 3 ≤ p.tema.length ∧
      trim p.perfil_alumnos = p.perfil_alumnos ∧ 5 ≤ p.perfil_alumnos.length) ∧
    (∀ theme es, run submitEnabled es (initialWorld theme) = some w →
      w.sent = clickSnapshots es (initialWorld theme)) ∧
    (∀ w', step submitEnabled .clickGenerate w = some w' →
      canSubmit w.app.draft = true ∧ w.app.loading = false ∧
      w'.sent = w.sent ++ [{ tema := trim w.app.draft.tema, materia := w.app.draft.materia,
                             perfil_alumnos := trim w.app.draft.perfil_alumnos }] ∧
      w'.inflight = w.inflight ++
        [{ intervalId := w.nextIntervalId,
           payload := { tema := trim w.app.draft.tema, materia := w.app.draft.materia,
                        perfil_alumnos := trim w.app.draft.perfil_alumnos } }]) ∧
    (w.app.loading = true → step submitEnabled .clickGenerate w = none) ∧
    (∀ key value w', step submitEnabled (.edit key value) w = some w' →
      w'.sent = w.sent ∧ w'.inflight = w.inflight ∧ w'.app.history = w.app.history ∧
      w'.app.lastPayload = w.app.lastPayload) ∧
    (∀ inv v w', step submitEnabled (.settles inv (.resolved (.value v))) w = some w' →
      inv ∈ w.inflight ∧ w'.app.lastPayload = some inv.payload ∧
      w'.app.history = (inv.payload :: w.app.history).take 5) := by
  obtain ⟨theme, es, hrun⟩ := h
  obtain ⟨_, hsent, hhist, hlast, hinf⟩ := payloadInv_run theme es w hrun
  refine ⟨?_, ?_, ?_, ?_, ?_, ?_⟩
  · intro p hp
    have hs : p ∈ w.sent := by
      rcases hp with hp | hp | hp | ⟨inv, hi, hp⟩
      · exact hp
      · exact hhist p hp
      · exact hlast p hp
      · exact hp ▸ hinf inv hi
    obtain ⟨before, after, atClick, h1, h2, h3, h4, h5⟩ := hsent p hs
    exact ⟨⟨theme, before, after, atClick, h1, h2, h3, h4, h5.1, h5.2.1, h5.2.2⟩,
      snapshot_trimmed atClick.app.draft p h3 h5⟩
  · intro theme2 es2 hrun2
    have := sent_eq_clickSnapshots es2 (initialWorld theme2) w hrun2
    simpa [initialWorld] using this
  · intro w' hstep
    simp only [step] at hstep
    split at hstep
    · next hc =>
      simp only [Option.some.injEq] at hstep
      subst hstep
      exact ⟨((submitEnabled_iff _).mp hc).1, ((submitEnabled_iff _).mp hc).2, rfl, rfl⟩
    · simp at hstep
  · intro hl
    simp [step, submitEnabled, hl]
  · intro key value w' hstep
    simp only [step, Option.some.injEq] at hstep
    subst hstep
    exact ⟨rfl, rfl, rfl, rfl⟩
  · intro inv v w' hstep
    simp only [step] at hstep
    split at hstep
    · next hmem =>
      simp only [Option.some.injEq] at hstep
      subst hstep
      exact ⟨hmem, rfl, rfl⟩
    · simp at hstep

/-- The starting draft is submitted, the topic is retyped as "Otro tema" while the call
is in flight, and the call resolves: the recorded payload is the trimmed draft of the
click, with the topic of the click, while the draft holds the new topic. -/
theorem payload_is_trimmed_snapshot_witness :
    (trim (buildPayload initialDraft).tema = (buildPayload initialDraft).tema ∧
     3 ≤ (buildPayload initialDraft).tema.length ∧
     trim (buildPayload initialDraft).perfil_alumnos
       = (buildPayload initialDraft).perfil_alumnos ∧
     5 ≤ (buildPayload initialDraft).perfil_alumnos.length) ∧
    ((run submitEnabled editedInFlight (initialWorld lightTheme)).getD
        (initialWorld lightTheme)).sent
      = clickSnapshots editedInFlight (initialWorld lightTheme) ∧
    ((run submitEnabled editedInFlight (initialWorld lightTheme)).getD
        (initialWorld lightTheme)).app.history
      = [{ tema := js "La Guerra Civil Española", materia := js "Historia",
           perfil_alumnos := js "Mayoría de estudiantes de Colombia y Venezuela" }] ∧
    ((run submitEnabled editedInFlight (initialWorld lightTheme)).getD
        (initialWorld lightTheme)).app.draft.tema = js "Otro tema" :=
  have h := payload_is_trimmed_snapshot
    ((run submitEnabled editedInFlight (initialWorld lightTheme)).getD (initialWorld lightTheme))
    ⟨lightTheme, editedInFlight, by decide⟩
  ⟨(h.1 (buildPayload initialDraft) (Or.inr (Or.inl (by decide)))).2,
   h.2.1 lightTheme editedInFlight (by decide), by decide, by decide⟩

/-! ## C10: the progress phrases -/

theorem timersFresh_step (mayClick : AppState → Bool) :
    ∀ e w w', TimersFresh w → step mayClick e w = some w' → TimersFresh w' := by
  intro e w w' hw h
  cases e with
  | edit key value =>
    simp only [step, Option.some.injEq] at h
    subst h
    exact hw
  | clickTheme =>
    simp only [step, Option.some.injEq] at h
    subst h
    exact hw
  | clickGenerate =>
    simp only [step] at h
    split at h
    · simp only [Option.some.injEq] at h
      subst h
      intro t ht
      rcases List.mem_append.mp ht with ht | ht
      · exact Nat.lt_succ_of_lt (hw t ht)
      · have : t = { id := w.nextIntervalId, stepIndex := 0 } := by simpa using ht
        subst this
        exact Nat.lt_succ_self _
    · simp at h
  | intervalFires id =>
    simp only [step] at h
    obtain ⟨t0, _, hid0, ht0⟩ := tick_some id w w' h
    subst ht0
    intro t ht
    obtain ⟨u, hu, hut⟩ := List.mem_map.mp ht
    have hid : t.id = u.id := by
      by_cases hc : u.id = id
      · simp only [hc, beq_self_eq_true, if_true] at hut
        rw [← hut, hc]
        exact hid0
      · have hb : (u.id == id) = false := by simpa using hc
        simp only [hb] at hut
        rw [← hut]
        rfl
    exact hid ▸ hw u hu
  | settles inv s =>
    simp only [step] at h
    split at h
    · simp only [Option.some.injEq] at h
      subst h
      intro t ht
      rw [resume_timers] at ht
      rw [resume_nextIntervalId]
      exact hw t (List.mem_of_mem_filter ht)
    · simp at h

theorem timersFresh_reachable (mayClick : AppState → Bool) (w : World)
    (h : Reachable mayClick w) : TimersFresh w := by
  obtain ⟨theme, es, hrun⟩ := h
  refine run_invariant mayClick TimersFresh (timersFresh_step mayClick) es _ w ?_ hrun
  intro t ht
  simp [initialWorld] at ht

theorem thinkingSteps_length : thinkingSteps.length = 6 := by decide

theorem arrayGet_thinkingSteps (i : Nat) (h : i < 6) :
    ∃ phrase, thinkingSteps[i]? = some phrase ∧ arrayGet thinkingSteps i = .string phrase := by
  have hi : i < thinkingSteps.length := by rw [thinkingSteps_length]; exact h
  refine ⟨thinkingSteps[i], List.getElem?_eq_getElem hi, ?_⟩
  unfold arrayGet
  rw [List.getElem?_eq_getElem hi]

theorem tick_own (w : World) (ts : List Timer) (id i : Nat) (app : AppState)
    (h : ∀ t ∈ ts, t.id ≠ id) :
    tick id (withOwnTimer w ts id i app)
      = some (withOwnTimer w ts id ((i + 1) % 6)
          { app with loadingStep := arrayGet thinkingSteps ((i + 1) % 6) }) := by
  have hfind : (ts ++ [({ id := id, stepIndex := i } : Timer)]).find? (fun t => t.id == id)
      = some { id := id, stepIndex := i } := by
    rw [List.find?_append, List.find?_eq_none.mpr (by intro t ht; simpa using h t ht)]
    simp
  have hmap : ∀ r : Timer, ts.map (fun u => if u.id == id then r else u) = ts := by
    intro r
    conv_rhs => rw [← List.map_id ts]
    apply List.map_congr_left
    intro u hu
    have hb : (u.id == id) = false := by simpa using h u hu
    simp [hb]
  unfold tick
  simp only [withOwnTimer, hfind, intervalCallback, thinkingSteps_length, List.map_append, hmap,
    List.map_cons, List.map_nil, beq_self_eq_true, if_true]

theorem ticks_own (w : World) (ts : List Timer) (id : Nat) (h : ∀ t ∈ ts, t.id ≠ id) :
    ∀ (k i : Nat) (app : AppState), i < 6 → app.loadingStep = arrayGet thinkingSteps i →
      ∃ app', ticks id k (withOwnTimer w ts id i app) = some (withOwnTimer w ts id ((i + k) % 6) app') ∧
        app'.loadingStep = arrayGet thinkingSteps ((i + k) % 6) ∧ app'.loading = app.loading := by
  intro k
  induction k with
  | zero =>
    intro i app hi happ
    refine ⟨app, ?_, ?_, rfl⟩
    · rw [Nat.add_zero, Nat.mod_eq_of_lt hi]; rfl
    · rw [Nat.add_zero, Nat.mod_eq_of_lt hi]; exact happ
  | succ k ih =>
    intro i app hi happ
    obtain ⟨app', h1, h2, h3⟩ := ih ((i + 1) % 6)
      { app with loadingStep := arrayGet thinkingSteps ((i + 1) % 6) }
      (Nat.mod_lt _ (by decide)) rfl
    have hmod : ((i + 1) % 6 + k) % 6 = (i + (k + 1)) % 6 := by omega
    rw [hmod] at h1 h2
    refine ⟨app', ?_, h2, h3⟩
    show (tick id (withOwnTimer w ts id i app)).bind (ticks id k) = _
    rw [tick_own w ts id i app h]
    exact h1

/-- C10: there are exactly six progress phrases; in every state the page can be in, a
call of `onGenerate` shows the first phrase, and after its interval has fired `k` times
before the call settles the phrase shown is `thinkingSteps[k mod 6]`, an entry of the
list and never `undefined`: the phrases come in list order and the sixth firing shows
the first phrase again; the page is still loading. -/
theorem progress_phrase_cycles (mayClick : AppState → Bool) (w : World)
    (h : Reachable mayClick w) (k : Nat) :
    thinkingSteps.length = 6 ∧
    (onGenerateStart w).1.app.loadingStep = arrayGet thinkingSteps 0 ∧
    k % 6 < thinkingSteps.length ∧
    (∃ w' phrase, ticks (onGenerateStart w).2.intervalId k (onGenerateStart w).1 = some w' ∧
      thinkingSteps[k % 6]? = some phrase ∧
      w'.app.loadingStep = .string phrase ∧
      w'.app.loadingStep = arrayGet thinkingSteps (k % 6) ∧
      w'.app.loadingStep ≠ .undefined ∧
      w'.app.loading = true) := by
  have hfresh : ∀ t ∈ w.timers, t.id ≠ w.nextIntervalId :=
    fun t ht => Nat.ne_of_lt (timersFresh_reachable mayClick w h t ht)
  have hk : k % 6 < 6 := Nat.mod_lt _ (by decide)
  refine ⟨thinkingSteps_length, rfl, by rw [thinkingSteps_length]; exact hk, ?_⟩
  obtain ⟨app', h1, h2, h3⟩ := ticks_own (onGenerateStart w).1 w.timers w.nextIntervalId hfresh k 0
    (onGenerateStart w).1.app (by decide) rfl
  rw [Nat.zero_add] at h1 h2
  obtain ⟨phrase, hp1, hp2⟩ := arrayGet_thinkingSteps (k % 6) hk
  refine ⟨_, phrase, h1, hp1, ?_, h2, ?_, h3⟩
  · show app'.loadingStep = _
    rw [h2, hp2]
  · show app'.loadingStep ≠ _
    rw [h2, hp2]
    simp

/-- Seven firings of the interval after a submit from the first render. -/
theorem progress_phrase_cycles_witness :
    thinkingSteps.length = 6 ∧
    (onGenerateStart (initialWorld lightTheme)).1.app.loadingStep = arrayGet thinkingSteps 0 ∧
    7 % 6 < thinkingSteps.length ∧
    (∃ w' phrase,
      ticks (onGenerateStart (initialWorld lightTheme)).2.intervalId 7
        (onGenerateStart (initialWorld lightTheme)).1 = some w' ∧
      thinkingSteps[7 % 6]? = some phrase ∧
      w'.app.loadingStep = .string phrase ∧
      w'.app.loadingStep = arrayGet thinkingSteps (7 % 6) ∧
      w'.app.loadingStep ≠ .undefined ∧
      w'.app.loading = true) :=
  progress_phrase_cycles submitEnabled (initialWorld lightTheme) ⟨lightTheme, [], rfl⟩ 7

/-! ## C6: download -/

theorem maximalRuns_cons_head (d : Nat) (ds : JSString) :
    ∃ run rest, maximalRuns (d :: ds) = (d :: run) :: rest := by
  unfold maximalRuns
  split
  · exact ⟨[], [], rfl⟩
  · exact ⟨[], _, rfl⟩
  · split
    · exact ⟨_, _, rfl⟩
    · exact ⟨[], _, rfl⟩

theorem flatten_maximalRuns (s : JSString) : (maximalRuns s).flatten = s := by
  induction s with
  | nil => rfl
  | cons c cs ih =>
    cases cs with
    | nil => rfl
    | cons d ds =>
      obtain ⟨run, rest, hr⟩ := maximalRuns_cons_head d ds
      rw [hr] at ih
      unfold maximalRuns
      rw [hr]
      simp only
      split
      · simpa using ih
      · simpa using ih

theorem maximalRuns_homogeneous (s : JSString) :
    ∀ run ∈ maximalRuns s, run ≠ [] ∧ ∀ c ∈ run, some (isWhiteSpace c) = runKind run := by
  induction s with
  | nil => intro run h; simp [maximalRuns] at h
  | cons c cs ih =>
    cases cs with
    | nil =>
      intro run h
      have : run = [c] := by simpa [maximalRuns] using h
      subst this
      simp [runKind]
    | cons d ds =>
      obtain ⟨run0, rest, hr⟩ := maximalRuns_cons_head d ds
      rw [hr] at ih
      intro run h
      unfold maximalRuns at h
      rw [hr] at h
      simp only at h
      have h0 := ih (d :: run0) (List.mem_cons_self _ _)
      split at h
      · next heq =>
        rcases List.mem_cons.mp h with h1 | h1
        · subst h1
          refine ⟨by simp, ?_⟩
          intro x hx
          rcases List.mem_cons.mp hx with hx | hx
          · subst hx; simp [runKind]
          · have := h0.2 x hx
            simp only [runKind, List.head?_cons, Option.map_some', Option.some.injEq] at this ⊢
            rw [this, heq]
        · exact ih run (List.mem_cons_of_mem _ h1)
      · rcases List.mem_cons.mp h with h1 | h1
        · subst h1
          simp [runKind]
        · exact ih run h1

theorem maximalRuns_alternate (s : JSString) :
    List.Chain' (fun a b => runKind a ≠ runKind b) (maximalRuns s) := by
  induction s with
  | nil => simp [maximalRuns]
  | cons c cs ih =>
    cases cs with
    | nil => simp [maximalRuns]
    | cons d ds =>
      obtain ⟨run0, rest, hr⟩ := maximalRuns_cons_head d ds
      rw [hr] at ih
      unfold maximalRuns
      rw [hr]
      simp only
      split
      · next heq =>
        cases rest with
        | nil => simp
        | cons r rest2 =>
          rw [List.chain'_cons] at ih ⊢
          refine ⟨?_, ih.2⟩
          have := ih.1
          simpa [runKind, heq] using this
      · next hne =>
        rw [List.chain'_cons]
        refine ⟨?_, ih⟩
        simpa [runKind] using hne

theorem underscore_cons_whiteSpace (c : Nat) (cs : JSString) (hc : isWhiteSpace c = true) :
    underscoreForWhiteSpaceRuns (c :: cs)
      = 95 :: underscoreForWhiteSpaceRuns (cs.dropWhile isWhiteSpace) := by
  induction cs generalizing c with
  | nil => simp [underscoreForWhiteSpaceRuns, maximalRuns, hc]
  | cons d ds ih =>
    obtain ⟨run, rest, hr⟩ := maximalRuns_cons_head d ds
    by_cases hd : isWhiteSpace d = true
    · have hrun : ∀ a ∈ run, isWhiteSpace a = true := by
        intro a ha
        have h0 := (maximalRuns_homogeneous (d :: ds) (d :: run)
          (by rw [hr]; exact List.mem_cons_self _ _)).2 a (List.mem_cons_of_mem _ ha)
        simpa [runKind, hd] using h0
      rw [List.dropWhile_cons_of_pos hd, ← ih d hd]
      unfold underscoreForWhiteSpaceRuns
      conv_lhs => unfold maximalRuns
      rw [hr]
      simp only [hc, hd, List.flatMap_cons, List.all_cons, Bool.true_and, if_true]
      rw [List.all_eq_true.mpr hrun]
      simp
    · rw [List.dropWhile_cons_of_neg hd]
      unfold underscoreForWhiteSpaceRuns
      conv_lhs => unfold maximalRuns
      rw [hr]
      simp [hc, hd]

theorem underscore_cons_other (c : Nat) (cs : JSString) (hc : isWhiteSpace c = false) :
    underscoreForWhiteSpaceRuns (c :: cs) = c :: underscoreForWhiteSpaceRuns cs := by
  cases cs with
  | nil => simp [underscoreForWhiteSpaceRuns, maximalRuns, hc]
  | cons d ds =>
    obtain ⟨run, rest, hr⟩ := maximalRuns_cons_head d ds
    unfold underscoreForWhiteSpaceRuns
    conv_lhs => unfold maximalRuns
    rw [hr]
    by_cases hd : isWhiteSpace d = true
    · simp [hc, hd]
    · simp [hc, hd]

theorem replaceScan_inMatch (cs : JSString) :
    replaceScan true cs = replaceScan false (cs.dropWhile isWhiteSpace) := by
  induction cs with
  | nil => rfl
  | cons c cs ih =>
    by_cases hc : isWhiteSpace c = true
    · rw [List.dropWhile_cons_of_pos hc, ← ih]
      simp [replaceScan, hc]
    · rw [List.dropWhile_cons_of_neg hc]
      simp [replaceScan, hc]

theorem replaceWhiteSpaceRuns_cons (c : Nat) (cs : JSString) :
    replaceWhiteSpaceRuns (c :: cs)
      = if isWhiteSpace c then 95 :: replaceWhiteSpaceRuns (cs.dropWhile isWhiteSpace)
        else c :: replaceWhiteSpaceRuns cs := by
  unfold replaceWhiteSpaceRuns
  rw [← replaceScan_inMatch]
  simp [replaceScan]

theorem replaceWhiteSpaceRuns_eq_underscore (s : JSString) :
    replaceWhiteSpaceRuns s = underscoreForWhiteSpaceRuns s := by
  generalize hn : s.length = n
  induction n using Nat.strong_induction_on generalizing s with
  | _ n ih =>
    cases s with
    | nil => rfl
    | cons c cs =>
      rw [replaceWhiteSpaceRuns_cons]
      by_cases hc : isWhiteSpace c = true
      · have hlt : (cs.dropWhile isWhiteSpace).length < n := by
          rw [← hn]
          exact Nat.lt_succ_of_le (List.dropWhile_sublist _).length_le
        rw [if_pos hc, underscore_cons_whiteSpace c cs hc,
          ih (cs.dropWhile isWhiteSpace).length hlt (cs.dropWhile isWhiteSpace) rfl]
      · have hc2 : isWhiteSpace c = false := by simpa using hc
        have hlt : cs.length < n := by
          rw [← hn]
          exact Nat.lt_succ_self _
        rw [if_neg hc, underscore_cons_other c cs hc2, ih cs.length hlt cs rfl]

theorem replaceWhiteSpaceRuns_no_whiteSpace (s : JSString) :
    ∀ c ∈ replaceWhiteSpaceRuns s, isWhiteSpace c = false := by
  generalize hn : s.length = n
  induction n using Nat.strong_induction_on generalizing s with
  | _ n ih =>
    cases s with
    | nil => intro c hc; simp [replaceWhiteSpaceRuns, replaceScan] at hc
    | cons a as =>
      intro c hc
      rw [replaceWhiteSpaceRuns_cons] at hc
      by_cases ha : isWhiteSpace a = true
      · have hlt : (as.dropWhile isWhiteSpace).length < n := by
          rw [← hn]
          exact Nat.lt_succ_of_le (List.dropWhile_sublist _).length_le
        rw [if_pos ha] at hc
        rcases List.mem_cons.mp hc with h1 | h1
        · subst h1; decide
        · exact ih _ hlt _ rfl c h1
      · have hlt : as.length < n := by
          rw [← hn]
          exact Nat.lt_succ_self _
        rw [if_neg ha] at hc
        rcases List.mem_cons.mp hc with h1 | h1
        · subst h1; simpa using ha
        · exact ih _ hlt _ rfl c h1

theorem replaceWhiteSpaceRuns_of_no_whiteSpace (s : JSString)
    (h : ∀ c ∈ s, isWhiteSpace c = false) : replaceWhiteSpaceRuns s = s := by
  induction s with
  | nil => rfl
  | cons a as ih =>
    have ha : isWhiteSpace a = false := h a (List.mem_cons_self _ _)
    rw [replaceWhiteSpaceRuns_cons, ha, ih (fun c hc => h c (List.mem_cons_of_mem _ hc))]
    simp

theorem downloadFicha_downloads (s : AppState) (doc : Document)
    (h : s.resultado.toBoolean = true) :
    (downloadFicha s doc).downloads
      = doc.downloads ++ [{ name := fichaFileName s.draft.tema,
                            blob := { parts := [s.resultado], type := js "text/markdown" } }] := by
  unfold downloadFicha
  simp [h]

/-- C6: `downloadFicha` leaves the document as it is (no file, no node, no object URL)
when `resultado` is empty; otherwise, for every topic and result, it offers exactly one
more file, of type `text/markdown`, whose only part is `resultado` verbatim and whose
name is 'Ficha_PuenteCultural_' followed by the topic with every maximal run of white
space replaced by one underscore, followed by '.md', and the anchor it appended to the
body is gone again. The replacement leaves no white space in the name part, changes
nothing in a topic without white space, and the runs it works on are the topic cut
into non-empty stretches of one kind that alternate. For the topic
"La Generación del 27" the name is 'Ficha_PuenteCultural_La_Generación_del_27.md'. -/
theorem downloadFicha_file (s : AppState) (doc : Document) :
    (s.resultado.toBoolean = false → downloadFicha s doc = doc) ∧
    (∀ r, s.resultado = .string r → r ≠ [] →
      (downloadFicha s doc).downloads
        = doc.downloads ++
          [{ name := js "Ficha_PuenteCultural_" ++ underscoreForWhiteSpaceRuns s.draft.tema
                      ++ js ".md",
             blob := { parts := [.string r], type := js "text/markdown" } }]) ∧
    (s.resultado.toBoolean = true →
      (downloadFicha s doc).downloads
        = doc.downloads ++
          [{ name := fichaFileName s.draft.tema,
             blob := { parts := [s.resultado], type := js "text/markdown" } }] ∧
      ((∀ n ∈ doc.body, n ≠ doc.nextNode) → (downloadFicha s doc).body = doc.body)) ∧
    (∀ t, fichaFileName t
        = js "Ficha_PuenteCultural_" ++ underscoreForWhiteSpaceRuns t ++ js ".md") ∧
    (∀ t, (maximalRuns t).flatten = t ∧
      (∀ run ∈ maximalRuns t, run ≠ [] ∧ ∀ c ∈ run, some (isWhiteSpace c) = runKind run) ∧
      List.Chain' (fun a b => runKind a ≠ runKind b) (maximalRuns t)) ∧
    (∀ t, ∀ c ∈ replaceWhiteSpaceRuns t, isWhiteSpace c = false) ∧
    (∀ t, (∀ c ∈ t, isWhiteSpace c = false) → replaceWhiteSpaceRuns t = t) ∧
    fichaFileName (js "La Generación del 27")
      = js "Ficha_PuenteCultural_La_Generación_del_27.md" := by
  have hname : ∀ t, fichaFileName t
      = js "Ficha_PuenteCultural_" ++ underscoreForWhiteSpaceRuns t ++ js ".md" := by
    intro t
    unfold fichaFileName
    rw [replaceWhiteSpaceRuns_eq_underscore]
  refine ⟨?_, ?_, ?_, hname, ?_, replaceWhiteSpaceRuns_no_whiteSpace,
    replaceWhiteSpaceRuns_of_no_whiteSpace, by decide⟩
  · intro h
    unfold downloadFicha
    simp [h]
  · intro r hr hne
    have hb : s.resultado.toBoolean = true := by
      rw [hr]
      cases r with
      | nil => exact absurd rfl hne
      | cons a as => rfl
    rw [downloadFicha_downloads s doc hb, hname, hr]
  · intro h
    refine ⟨downloadFicha_downloads s doc h, ?_⟩
    intro hfresh
    unfold downloadFicha
    simp only [h, Bool.not_true, Bool.false_eq_true, if_false]
    rw [List.filter_append]
    have h1 : doc.body.filter (fun n => !(n == doc.nextNode)) = doc.body := by
      rw [List.filter_eq_self]
      intro n hn
      simpa using hfresh n hn
    rw [h1]
    simp
  · intro t
    exact ⟨flatten_maximalRuns t, maximalRuns_homogeneous t, maximalRuns_alternate t⟩

/-- A download of the result "# Ficha" for the topic "La Generación del 27" into an
empty document. -/
theorem downloadFicha_file_witness :
    (downloadFicha
        { initialState lightTheme with
          resultado := .string (js "# Ficha")
          draft := { initialDraft with tema := js "La Generación del 27" } }
        { body := [], nextNode := 0, objectURLs := [], downloads := [] }).downloads
      = [] ++
        [{ name := js "Ficha_PuenteCultural_" ++
                    underscoreForWhiteSpaceRuns (js "La Generación del 27") ++ js ".md",
           blob := { parts := [.string (js "# Ficha")], type := js "text/markdown" } }] :=
  (downloadFicha_file
      { initialState lightTheme with
        resultado := .string (js "# Ficha")
        draft := { initialDraft with tema := js "La Generación del 27" } }
      { body := [], nextNode := 0, objectURLs := [], downloads := [] }).2.1
    (js "# Ficha") rfl (by decide)

end PuenteCultural
